import Mathlib

/-!
Shallow embedding of `scripts/sync-gallery.mjs`: a script that synchronizes
images from a SharePoint shared folder into `assets/gallery` and writes an
ordered `index.json` manifest.  Pure functions of the script are translated
to Lean functions; the stateful main body is translated to a pure function
from (environment, remote state, initial directory contents) to a trace of
side-effect events plus either an error or a run result.
-/

namespace SyncGallery

/-- Truthiness of an optional JS string: `undefined` and the empty string are
falsy, every other string is truthy. -/
def jsTruthy : Option String → Bool
  | none => false
  | some s => !s.isEmpty

/-- Embedding of the JS idiom `x || d` for an optional string `x` and a string
default `d`: the default is used when `x` is `undefined` or empty. -/
def jsOrStr (x : Option String) (d : String) : String :=
  match x with
  | none => d
  | some s => if s.isEmpty then d else s

/-- ASCII lower-casing of a string, modelling `s.toLowerCase()` for the ASCII
configuration and name strings this script handles. -/
def strToLower (s : String) : String := String.mk (s.data.map Char.toLower)

/-- Leading-match test of a pattern against a character list. -/
def chStartsWith : List Char → List Char → Bool
  | [], _ => true
  | _ :: _, [] => false
  | a :: as, b :: bs => a == b && chStartsWith as bs

/-- Embedding of `s.startsWith(p)` on strings. -/
def strStartsWith (s p : String) : Bool := chStartsWith p.data s.data

/-- Embedding of a case-sensitive `s.endsWith(p)` on strings. -/
def strEndsWith (s p : String) : Bool := chStartsWith p.data.reverse s.data.reverse

/-- Whitespace trimming of both ends, modelling `s.trim()`. -/
def chTrim (cs : List Char) : List Char :=
  (((cs.dropWhile Char.isWhitespace).reverse).dropWhile Char.isWhitespace).reverse

/-- Embedding of `s.trim()` on strings. -/
def strTrim (s : String) : String := String.mk (chTrim s.data)

/-- Splitting at every occurrence of a separator character, modelling
`s.split(sep)` for the one-character separators the script uses. -/
def chSplitOn (sep : Char) : List Char → List (List Char)
  | [] => [[]]
  | c :: rest =>
    match chSplitOn sep rest with
    | [] => if c == sep then [[], []] else [[c]]
    | h :: t => if c == sep then [] :: h :: t else (c :: h) :: t

/-- Embedding of `s.split(sep)` on strings. -/
def strSplitOn (sep : Char) (s : String) : List String :=
  (chSplitOn sep s.data).map String.mk

/-- Numeric value of a list of decimal digit characters. -/
def digitsVal (cs : List Char) : Nat :=
  cs.foldl (fun a c => 10 * a + (c.toNat - 48)) 0

/-- Hexadecimal digit value. -/
def hexDigitVal (c : Char) : Option Nat :=
  let n := c.toNat
  if 48 ≤ n ∧ n ≤ 57 then some (n - 48)
  else if 97 ≤ n ∧ n ≤ 102 then some (n - 87)
  else if 65 ≤ n ∧ n ≤ 70 then some (n - 55)
  else none

/-- Octal digit value. -/
def octDigitVal (c : Char) : Option Nat :=
  let n := c.toNat
  if 48 ≤ n ∧ n ≤ 55 then some (n - 48) else none

/-- Binary digit value. -/
def binDigitVal (c : Char) : Option Nat :=
  let n := c.toNat
  if n = 48 ∨ n = 49 then some (n - 48) else none

/-- Value of a nonempty digit list in a given radix; `none` on an empty list
or an invalid digit. -/
def parseRadixNat (radix : Nat) (digitOf : Char → Option Nat) (ds : List Char) :
    Option Nat :=
  if ds.isEmpty then none
  else
    ds.foldl
      (fun acc c =>
        match acc, digitOf c with
        | some a, some d => some (radix * a + d)
        | _, _ => none)
      (some 0)

/-- Split at the first exponent marker `e`/`E`, when one is present. -/
def splitOnExpChar : List Char → List Char × Option (List Char)
  | [] => ([], none)
  | c :: rest =>
    if c == 'e' || c == 'E' then ([], some rest)
    else
      let r := splitOnExpChar rest
      (c :: r.1, r.2)

/-- Exact magnitude `n * 10 ^ k`, truncated toward zero for negative `k`. -/
def decScale (n : Nat) (k : Int) : Nat :=
  if 0 ≤ k then n * 10 ^ k.toNat else n / 10 ^ (-k).toNat

/-- Magnitude of an unsigned decimal literal (digits with optional fraction
and optional signed exponent), truncated toward zero; `none` when the literal
is malformed. -/
def parseDecMagnitude (body : List Char) : Option Nat :=
  let me := splitOnExpChar body
  let expVal :=
    match me.2 with
    | none => some (0 : Int)
    | some ecs =>
      let (eneg, eds) :=
        match ecs with
        | '-' :: r => (true, r)
        | '+' :: r => (false, r)
        | r => (false, r)
      if !eds.isEmpty && eds.all Char.isDigit then
        some (if eneg then -Int.ofNat (digitsVal eds) else Int.ofNat (digitsVal eds))
      else none
  match expVal with
  | none => none
  | some k =>
    match chSplitOn '.' me.1 with
    | [ip] =>
      if !ip.isEmpty && ip.all Char.isDigit then some (decScale (digitsVal ip) k)
      else none
    | [ip, fp] =>
      if ip.all Char.isDigit && fp.all Char.isDigit && !(ip.isEmpty && fp.isEmpty) then
        some (decScale (digitsVal (ip ++ fp)) (k - Int.ofNat fp.length))
      else none
    | _ => none

/-- Embedding of `Number.isFinite(Number(s)) ? some (truncated value) : none`,
the script's maximum-count parse.  `undefined` and malformed literals are NaN
(`none`); a blank string is `0`; signed decimal literals with optional
fraction and exponent, and unsigned hex (`0x`), octal (`0o`) and binary
(`0b`) literals give their exact value truncated toward zero (as
`Array.prototype.slice`'s ToIntegerOrInfinity does); `Infinity` literals are
non-finite (`none`), matching the `Number.isFinite` gate.  Float64 rounding
and the overflow of astronomically large literals to `Infinity` are not
modelled: the parsed value is kept exact. -/
def jsNumberInt : Option String → Option Int
  | none => none
  | some s =>
    let t := chTrim s.data
    if t.isEmpty then some 0
    else
      match t with
      | '0' :: 'x' :: ds => (parseRadixNat 16 hexDigitVal ds).map Int.ofNat
      | '0' :: 'X' :: ds => (parseRadixNat 16 hexDigitVal ds).map Int.ofNat
      | '0' :: 'o' :: ds => (parseRadixNat 8 octDigitVal ds).map Int.ofNat
      | '0' :: 'O' :: ds => (parseRadixNat 8 octDigitVal ds).map Int.ofNat
      | '0' :: 'b' :: ds => (parseRadixNat 2 binDigitVal ds).map Int.ofNat
      | '0' :: 'B' :: ds => (parseRadixNat 2 binDigitVal ds).map Int.ofNat
      | _ =>
        let (neg, body) :=
          match t with
          | '-' :: rest => (true, rest)
          | '+' :: rest => (false, rest)
          | cs => (false, cs)
        if body == "Infinity".data then none
        else
          match parseDecMagnitude body with
          | some m => some (if neg then -Int.ofNat m else Int.ofNat m)
          | none => none

/-- Embedding of `l.slice(0, n)` for a possibly negative JS index `n`:
a nonnegative end takes that many elements, a negative end counts from the
end of the list (clamped at zero). -/
def jsSliceTo (n : Int) (l : List α) : List α :=
  if 0 ≤ n then l.take n.toNat else l.take (l.length - (-n).toNat)

/-- Substring test on character lists: does `p` occur contiguously in `s`? -/
def chHasInfix (p : List Char) : List Char → Bool
  | [] => chStartsWith p []
  | c :: rest => chStartsWith p (c :: rest) || chHasInfix p rest

/-- Embedding of JS `s.includes(pat)`. -/
def strIncludes (s pat : String) : Bool := chHasInfix pat.data s.data

/-- Environment variables read by the script (a `none` field models an unset
variable). -/
structure Env where
  TENANT_ID : Option String
  CLIENT_ID : Option String
  CLIENT_SECRET : Option String
  SP_FOLDER_SHARE_URL : Option String
  DELETE_MISSING : Option String
  MAX_IMAGES : Option String
  INCLUDE_EXTS : Option String
  INDEX_FILE : Option String
deriving DecidableEq

/-- Target directory constant of the script. -/
def GALLERY_DIR : String := "assets/gallery"

/-- Embedding of `INDEX_FILE || "assets/gallery/index.json"`. -/
def INDEX_PATH (e : Env) : String := jsOrStr e.INDEX_FILE "assets/gallery/index.json"

/-- Embedding of `Number.isFinite(Number(MAX_IMAGES)) ? Number(MAX_IMAGES) : 200`. -/
def MAX (e : Env) : Int := (jsNumberInt e.MAX_IMAGES).getD 200

/-- Embedding of `String(DELETE_MISSING || "").toLowerCase() === "true"`. -/
def deleteMissing (e : Env) : Bool := strToLower (jsOrStr e.DELETE_MISSING "") == "true"

/-- Embedding of the `allowedExts` set built from
`(INCLUDE_EXTS || "jpg,jpeg,png,webp").split(",").map(trim+lower).filter(nonempty)`;
the JS `Set` is modelled as a list queried only through membership. -/
def allowedExts (e : Env) : List String :=
  ((strSplitOn ',' (jsOrStr e.INCLUDE_EXTS "jpg,jpeg,png,webp")).map
    (fun s => strToLower (strTrim s))).filter (fun s => !s.isEmpty)

/-- Characters after the last dot of the string, when a dot occurs. -/
def afterLastDot : List Char → Option (List Char)
  | [] => none
  | c :: rest =>
    match afterLastDot rest with
    | some s => some s
    | none => if c == '.' then some rest else none

/-- Embedding of the regex match `/\.([a-zA-Z0-9]+)$/.exec(name)` followed by
lower-casing: the segment after the last dot, when it is a nonempty run of
ASCII alphanumerics, else the empty string. -/
def nameExt (name : String) : String :=
  match afterLastDot name.data with
  | some s =>
    if !s.isEmpty && s.all Char.isAlphanum then strToLower (String.mk s) else ""
  | none => ""

/-- Embedding of `extFromName(name, mimeType)`; the script's global
`allowedExts` is passed explicitly. -/
def extFromName (allowed : List String) (name mimeType : String) : String :=
  let ext := nameExt name
  if !ext.isEmpty && allowed.contains ext then ext
  else
    let mt := strToLower mimeType
    if strIncludes mt "jpeg" then "jpeg"
    else if strIncludes mt "jpg" then "jpg"
    else if strIncludes mt "png" then "png"
    else if strIncludes mt "webp" then "webp"
    else ""

/-- Embedding of the regex test `/\.(jpe?g|png|webp)$/i` used by
`listLocalImages`. -/
def isImageFile (name : String) : Bool :=
  let n := strToLower name
  strEndsWith n ".jpg" || strEndsWith n ".jpeg"
    || strEndsWith n ".png" || strEndsWith n ".webp"

/-- Value of a decimal digit character. -/
def digitVal (c : Char) : Nat := c.toNat - 48

/-- Collation key of a character list for the comparison
`a.localeCompare(b, undefined, \x7b numeric: true \x7d)`.  Maximal digit runs
become a number token, every other character becomes a character token; each
token contributes two key entries so that the flat key compares
lexicographically exactly as the token sequence does.  A number token is the
pair `(48, value)` and a character token the pair `(lower-cased code point,
0)`: digit runs therefore compare by numeric value (leading zeros compare
equal), a digit run sorts against a non-digit character exactly as a digit
would by code point, and letters compare case-insensitively, which models the
primary strength of the default-locale ICU collation for the ASCII names this
script meets (tertiary, purely case distinctions compare equal here, which the
stable sort then leaves in input order). -/
def natKeyAux : Option Nat → List Char → List Nat
  | none, [] => []
  | some n, [] => [48, n]
  | none, c :: cs =>
    if c.isDigit then natKeyAux (some (digitVal c)) cs
    else c.toLower.toNat :: 0 :: natKeyAux none cs
  | some n, c :: cs =>
    if c.isDigit then natKeyAux (some (10 * n + digitVal c)) cs
    else 48 :: n :: c.toLower.toNat :: 0 :: natKeyAux none cs

/-- Collation key of a string. -/
def natKey (s : String) : List Nat := natKeyAux none s.data

/-- Lexicographic comparison of two flat collation keys. -/
def lexCmp : List Nat → List Nat → Ordering
  | [], [] => Ordering.eq
  | [], _ :: _ => Ordering.lt
  | _ :: _, [] => Ordering.gt
  | a :: as, b :: bs =>
    match compare a b with
    | Ordering.eq => lexCmp as bs
    | o => o

/-- Embedding of `a.localeCompare(b, undefined, \x7b numeric: true \x7d)`
(sign only, as an `Ordering`). -/
def nameCmp (a b : String) : Ordering := lexCmp (natKey a) (natKey b)

/-- Raw child entry of the Graph listing response; `none` fields model absent
JSON properties. -/
structure RawChild where
  id : Option String
  name : String
  fileMimeType : Option String
  downloadUrl : Option String
  createdDateTime : Option String
  lastModifiedDateTime : Option String
deriving DecidableEq

/-- Image item produced by the listing pipeline's `.map` step. -/
structure RemoteItem where
  id : String
  name : String
  mimeType : String
  downloadUrl : String
  created : String
  lastModified : String
deriving DecidableEq

/-- Embedding of the listing pipeline
`(children.value || []).filter(image mime).map(project).filter(id and url)`. -/
def listItems (children : List RawChild) : List RemoteItem :=
  ((children.filter fun x =>
      match x.fileMimeType with
      | some mt => strStartsWith mt "image/"
      | none => false).map fun x =>
      { id := x.id.getD "", name := x.name, mimeType := x.fileMimeType.getD "",
        downloadUrl := x.downloadUrl.getD "", created := x.createdDateTime.getD "",
        lastModified := x.lastModifiedDateTime.getD "" }).filter fun x =>
    !x.id.isEmpty && !x.downloadUrl.isEmpty

/-- Sort relation used by `items.sort((a, b) => a.name.localeCompare(...))`:
item `a` may stay before item `b` when the comparator does not order it
strictly after `b`.  `List.insertionSort` with this relation is a stable
comparator sort, as `Array.prototype.sort` is. -/
def itemLe (a b : RemoteItem) : Prop := nameCmp a.name b.name ≠ Ordering.gt

instance : DecidableRel itemLe := fun a b =>
  inferInstanceAs (Decidable (nameCmp a.name b.name ≠ Ordering.gt))

/-- Sorted and truncated item list: embedding of `items.sort(...)` followed by
`items.slice(0, MAX)`. -/
def itemsOf (e : Env) (children : List RawChild) : List RemoteItem :=
  jsSliceTo (MAX e) (List.insertionSort itemLe (listItems children))

/-- Derived local filename of an item, `none` when the item is skipped for
lack of a derivable extension. -/
def fileNameOf (allowed : List String) (it : RemoteItem) : Option String :=
  let ext := extFromName allowed it.name it.mimeType
  if ext.isEmpty then none else some (it.id ++ "." ++ ext)

/-- Embedding of `desired.set(k, v)` on a JS `Map` kept as an association
list: an existing key keeps its position and gets the new value, a new key is
appended. -/
def mapSet (m : List (String × RemoteItem)) (k : String) (v : RemoteItem) :
    List (String × RemoteItem) :=
  if m.any (fun p => p.1 == k) then
    m.map (fun p => if p.1 == k then (k, v) else p)
  else m ++ [(k, v)]

/-- Embedding of the loop that builds the `desired` map and the
`orderedFileNames` array from the sorted, truncated items. -/
def buildDesired (allowed : List String) (items : List RemoteItem) :
    List (String × RemoteItem) × List String :=
  items.foldl
    (fun acc it =>
      match fileNameOf allowed it with
      | none => acc
      | some fn => (mapSet acc.1 fn it, acc.2 ++ [fn]))
    ([], [])

/-- Side-effect events of a run, in the order the script performs them. -/
inductive Event where
  | mkdirCall (dir : String)
  | netCall (url : String)
  | fsWrite (path : String)
  | fsDelete (path : String)
deriving DecidableEq

/-- Download phase: for each desired entry in map order, a file already
present is skipped, otherwise its bytes are fetched and written.  Returns the
directory contents after the phase, the downloaded filenames, and the emitted
events. -/
def downloadPhase (dir0 : List String) (desired : List (String × RemoteItem)) :
    List String × List String × List Event :=
  desired.foldl
    (fun acc entry =>
      if acc.1.contains entry.1 then acc
      else
        (acc.1 ++ [entry.1], acc.2.1 ++ [entry.1],
         acc.2.2 ++ [Event.netCall entry.2.downloadUrl,
                     Event.fsWrite (GALLERY_DIR ++ "/" ++ entry.1)]))
    (dir0, [], [])

/-- Deletion phase (only when `deleteMissing`): every local file whose name
matches the image regex and is not a desired key is unlinked.  Returns the
directory contents after the phase, the deleted filenames, and the emitted
events. -/
def deletePhase (dm : Bool) (files : List String) (keys : List String) :
    List String × List String × List Event :=
  if dm then
    let doomed := files.filter fun f => isImageFile f && !keys.contains f
    (files.filter (fun f => !(isImageFile f && !keys.contains f)), doomed,
     doomed.map fun f => Event.fsDelete (GALLERY_DIR ++ "/" ++ f))
  else (files, [], [])

/-- UTF-8 bytes of a single character (each byte a `Nat` below 256),
modelling `Buffer.from(url, "utf8")`. -/
def utf8Char (c : Char) : List Nat :=
  let n := c.toNat
  if n < 128 then [n]
  else if n < 2048 then [192 + n / 64, 128 + n % 64]
  else if n < 65536 then [224 + n / 4096, 128 + (n / 64) % 64, 128 + n % 64]
  else [240 + n / 262144, 128 + (n / 4096) % 64, 128 + (n / 64) % 64, 128 + n % 64]

/-- UTF-8 bytes of a string. -/
def utf8Bytes (s : String) : List Nat := s.data.flatMap utf8Char

/-- Standard base64 alphabet. -/
def b64Alphabet : List Char :=
  "ABCDEFGHIJKLMNOPQRSTUVWXYZabcdefghijklmnopqrstuvwxyz0123456789+/".data

/-- Character of a 6-bit group. -/
def b64Char (n : Nat) : Char := b64Alphabet.getD n 'A'

/-- Base64 encoding of a byte list with `=` padding, modelling
`buffer.toString("base64")`. -/
def b64EncodeBytes : List Nat → List Char
  | [] => []
  | [a] => [b64Char (a / 4), b64Char (a % 4 * 16), '=', '=']
  | [a, b] => [b64Char (a / 4), b64Char (a % 4 * 16 + b / 16), b64Char (b % 16 * 4), '=']
  | a :: b :: c :: rest =>
    b64Char (a / 4) :: b64Char (a % 4 * 16 + b / 16) ::
      b64Char (b % 16 * 4 + c / 64) :: b64Char (c % 64) :: b64EncodeBytes rest

/-- Character substitution of `.replace(/\+/g, "-").replace(/\//g, "_")`. -/
def replUrlSafe (c : Char) : Char :=
  if c == '+' then '-' else if c == '/' then '_' else c

/-- Embedding of `.replace(/=+$/g, "")`: drop every trailing `=`. -/
def stripTrailingEq (cs : List Char) : List Char :=
  (cs.reverse.dropWhile (fun c => c == '=')).reverse

/-- Embedding of `toShareId(url)`: base64url-encode the URL and prepend the
`u!` marker. -/
def toShareId (url : String) : String :=
  String.mk
    ('u' :: '!' ::
      stripTrailingEq ((b64EncodeBytes (utf8Bytes url)).map replUrlSafe))

/-- Remote-side state a run interacts with: whether the token exchange
succeeds, the resolved folder response fields `parentReference.driveId` and
`id` (absent fields are `none`), whether the children listing succeeds, and
the listing's entries.  Byte downloads of listed items are modelled as
succeeding; every claim about a completed run conditions on an `ok` result. -/
structure Remote where
  tokenOk : Bool
  driveId : Option String
  folderId : Option String
  listOk : Bool
  children : List RawChild
deriving DecidableEq

/-- Result of a completed run: final directory contents, the filenames
downloaded, the filenames deleted, the manifest array written to the index
file, and the index path written. -/
structure RunResult where
  files : List String
  downloads : List String
  deleted : List String
  manifest : List String
  indexPath : String
deriving DecidableEq

/-- Embedding of the script's main body as a pure function from the
environment, the remote state and the initial directory contents to the trace
of side-effect events performed and either the thrown error message or the
run result.  The required-variable check happens before every event,
including the `mkdirSync` and every network call, exactly as in the source
(line 31 precedes line 48 and all fetches). -/
def syncMain (e : Env) (remote : Remote) (dir0 : List String) :
    List Event × Except String RunResult :=
  if !jsTruthy e.TENANT_ID || !jsTruthy e.CLIENT_ID || !jsTruthy e.CLIENT_SECRET
      || !jsTruthy e.SP_FOLDER_SHARE_URL then
    ([], Except.error
      "Missing required env vars: TENANT_ID, CLIENT_ID, CLIENT_SECRET, SP_FOLDER_SHARE_URL")
  else
    let ev0 := [Event.mkdirCall GALLERY_DIR,
      Event.netCall ("https://login.microsoftonline.com/" ++ (e.TENANT_ID.getD "")
        ++ "/oauth2/v2.0/token")]
    if !remote.tokenOk then (ev0, Except.error "Token error")
    else
      let shareId := toShareId (e.SP_FOLDER_SHARE_URL.getD "")
      let ev1 := ev0 ++ [Event.netCall
        ("https://graph.microsoft.com/v1.0/shares/" ++ shareId ++ "/driveItem")]
      if !jsTruthy remote.driveId || !jsTruthy remote.folderId then
        (ev1, Except.error "Folder resolve failed")
      else
        let ev2 := ev1 ++ [Event.netCall
          ("https://graph.microsoft.com/v1.0/drives/" ++ remote.driveId.getD ""
            ++ "/items/" ++ remote.folderId.getD "" ++ "/children?$top=200")]
        if !remote.listOk then (ev2, Except.error "Graph error")
        else
          let items := itemsOf e remote.children
          let built := buildDesired (allowedExts e) items
          let down := downloadPhase dir0 built.1
          let del := deletePhase (deleteMissing e) down.1 (built.1.map Prod.fst)
          (ev2 ++ down.2.2 ++ del.2.2 ++ [Event.fsWrite (INDEX_PATH e)],
           Except.ok
             { files := del.1, downloads := down.2.1, deleted := del.2.1,
               manifest := built.2, indexPath := INDEX_PATH e })

/-- Final `desired` map of a configuration and listing. -/
def desiredMap (e : Env) (children : List RawChild) : List (String × RemoteItem) :=
  (buildDesired (allowedExts e) (itemsOf e children)).1

/-- Final `orderedFileNames` array of a configuration and listing. -/
def orderedNames (e : Env) (children : List RawChild) : List String :=
  (buildDesired (allowedExts e) (itemsOf e children)).2

/-- Desired-key list of a configuration and listing (first components of the
`desired` map). -/
def desiredKeys (e : Env) (children : List RawChild) : List String :=
  (desiredMap e children).map Prod.fst

/-- Guards a run must pass to reach the sync phases: required variables
present, token exchange succeeded, folder resolution returned both ids, and
the children listing succeeded. -/
def guardsOk (e : Env) (remote : Remote) : Bool :=
  jsTruthy e.TENANT_ID && jsTruthy e.CLIENT_ID && jsTruthy e.CLIENT_SECRET
    && jsTruthy e.SP_FOLDER_SHARE_URL && remote.tokenOk
    && jsTruthy remote.driveId && jsTruthy remote.folderId && remote.listOk

/-- Result record of a run whose guards pass. -/
def runResultOf (e : Env) (remote : Remote) (dir0 : List String) : RunResult :=
  let down := downloadPhase dir0 (desiredMap e remote.children)
  let del := deletePhase (deleteMissing e) down.1 (desiredKeys e remote.children)
  { files := del.1, downloads := down.2.1, deleted := del.2.1,
    manifest := orderedNames e remote.children, indexPath := INDEX_PATH e }

/-- Specification-side manifest: the remote items, sorted ascending by the
numeric-aware name comparison, truncated to the configured maximum, each
mapped to its derived filename with extensionless items skipped. -/
def specManifest (e : Env) (children : List RawChild) : List String :=
  (jsSliceTo (MAX e) (List.insertionSort itemLe (listItems children))).filterMap
    (fileNameOf (allowedExts e))

/-! Comparator theory: `lexCmp` behaves as a total preorder comparison, which
makes the insertion sort with `itemLe` a genuine ascending sort. -/

theorem lexCmp_nil_ne_gt : ∀ c : List Nat, lexCmp [] c ≠ Ordering.gt
  | [] => by simp [lexCmp]
  | _ :: _ => by simp [lexCmp]

theorem lexCmp_swap : ∀ a b : List Nat, lexCmp b a = (lexCmp a b).swap
  | [], [] => rfl
  | [], _ :: _ => rfl
  | _ :: _, [] => rfl
  | x :: xs, y :: ys => by
    simp only [lexCmp]
    rcases Nat.lt_trichotomy x y with h | h | h
    · rw [Nat.compare_eq_lt.2 h, Nat.compare_eq_gt.2 h]
      rfl
    · subst h
      rw [Nat.compare_eq_eq.2 rfl]
      exact lexCmp_swap xs ys
    · rw [Nat.compare_eq_gt.2 h, Nat.compare_eq_lt.2 h]
      rfl

theorem lexCmp_le_trans (a : List Nat) : ∀ b c : List Nat,
    lexCmp a b ≠ Ordering.gt → lexCmp b c ≠ Ordering.gt → lexCmp a c ≠ Ordering.gt := by
  induction a with
  | nil => exact fun b c _ _ => lexCmp_nil_ne_gt c
  | cons x xs ih =>
    intro b c h1 h2
    cases b with
    | nil => exact absurd rfl h1
    | cons y ys =>
      cases c with
      | nil => exact absurd rfl h2
      | cons z zs =>
        simp only [lexCmp] at h1 h2 ⊢
        cases hxy : compare x y with
        | gt => rw [hxy] at h1; exact absurd rfl h1
        | lt =>
          have hxyn := Nat.compare_eq_lt.1 hxy
          cases hyz : compare y z with
          | gt => rw [hyz] at h2; exact absurd rfl h2
          | lt =>
            have hyzn := Nat.compare_eq_lt.1 hyz
            rw [Nat.compare_eq_lt.2 (by omega : x < z)]
            simp
          | eq =>
            have hyzn := Nat.compare_eq_eq.1 hyz
            rw [Nat.compare_eq_lt.2 (by omega : x < z)]
            simp
        | eq =>
          have hxyn := Nat.compare_eq_eq.1 hxy
          rw [hxy] at h1
          cases hyz : compare y z with
          | gt => rw [hyz] at h2; exact absurd rfl h2
          | lt =>
            have hyzn := Nat.compare_eq_lt.1 hyz
            rw [Nat.compare_eq_lt.2 (by omega : x < z)]
            simp
          | eq =>
            have hyzn := Nat.compare_eq_eq.1 hyz
            rw [hyz] at h2
            rw [Nat.compare_eq_eq.2 (by omega : x = z)]
            exact ih ys zs h1 h2

theorem lexCmp_le_total (a b : List Nat) :
    lexCmp a b ≠ Ordering.gt ∨ lexCmp b a ≠ Ordering.gt := by
  cases h : lexCmp a b with
  | gt =>
    right
    rw [lexCmp_swap a b, h]
    simp [Ordering.swap]
  | lt => left; simp [h]
  | eq => left; simp [h]

instance : IsTrans RemoteItem itemLe :=
  ⟨fun _ _ _ h1 h2 => lexCmp_le_trans _ _ _ h1 h2⟩

instance : IsTotal RemoteItem itemLe :=
  ⟨fun a b => lexCmp_le_total (natKey a.name) (natKey b.name)⟩

/-! Pipeline lemmas. -/

theorem strContains_iff (l : List String) (a : String) : l.contains a = true ↔ a ∈ l :=
  List.elem_iff

/-- Step function of the `desired` / `orderedFileNames` building loop. -/
def buildStep (allowed : List String)
    (acc : List (String × RemoteItem) × List String) (it : RemoteItem) :
    List (String × RemoteItem) × List String :=
  match fileNameOf allowed it with
  | none => acc
  | some fn => (mapSet acc.1 fn it, acc.2 ++ [fn])

theorem buildDesired_eq_foldl (allowed : List String) (items : List RemoteItem) :
    buildDesired allowed items = items.foldl (buildStep allowed) ([], []) := by
  unfold buildDesired buildStep
  rfl

theorem buildStep_snd (allowed : List String) (items : List RemoteItem) :
    ∀ (m : List (String × RemoteItem)) (o : List String),
      (items.foldl (buildStep allowed) (m, o)).2 = o ++ items.filterMap (fileNameOf allowed) := by
  induction items with
  | nil => intro m o; simp
  | cons it rest ih =>
    intro m o
    rw [List.foldl_cons, List.filterMap_cons]
    cases h : fileNameOf allowed it with
    | none =>
      have hstep : buildStep allowed (m, o) it = (m, o) := by rw [buildStep, h]
      simp [hstep, ih, h]
    | some fn =>
      have : buildStep allowed (m, o) it = (mapSet m fn it, o ++ [fn]) := by
        rw [buildStep, h]
      rw [this, ih]
      simp [h]

theorem buildDesired_snd (allowed : List String) (items : List RemoteItem) :
    (buildDesired allowed items).2 = items.filterMap (fileNameOf allowed) := by
  rw [buildDesired_eq_foldl, buildStep_snd]
  rfl

theorem mapSet_keys_mem (m : List (String × RemoteItem)) (k : String) (v : RemoteItem)
    (x : String) : x ∈ (mapSet m k v).map Prod.fst ↔ x = k ∨ x ∈ m.map Prod.fst := by
  unfold mapSet
  split
  · next hany =>
    have hk : k ∈ m.map Prod.fst := by
      obtain ⟨p, hp, hbeq⟩ := List.any_eq_true.1 hany
      exact (eq_of_beq hbeq) ▸ List.mem_map_of_mem Prod.fst hp
    have hmap : (m.map (fun p => if p.1 == k then (k, v) else p)).map Prod.fst
        = m.map Prod.fst := by
      rw [List.map_map]
      refine List.map_congr_left fun p _ => ?_
      by_cases hb : (p.1 == k) = true
      · simp [Function.comp, hb, eq_of_beq hb]
      · simp [Function.comp, hb]
    rw [hmap]
    constructor
    · exact Or.inr
    · rintro (rfl | hx)
      · exact hk
      · exact hx
  · simp [or_comm]

theorem mapSet_keys_nodup (m : List (String × RemoteItem)) (k : String) (v : RemoteItem)
    (h : (m.map Prod.fst).Nodup) : ((mapSet m k v).map Prod.fst).Nodup := by
  unfold mapSet
  split
  · next hany =>
    have hmap : (m.map (fun p => if p.1 == k then (k, v) else p)).map Prod.fst
        = m.map Prod.fst := by
      rw [List.map_map]
      refine List.map_congr_left fun p _ => ?_
      by_cases hb : (p.1 == k) = true
      · simp [Function.comp, hb, eq_of_beq hb]
      · simp [Function.comp, hb]
    rw [hmap]; exact h
  · next hany =>
    have hk : k ∉ m.map Prod.fst := by
      intro hx
      obtain ⟨p, hp, hfst⟩ := List.mem_map.1 hx
      exact hany (List.any_eq_true.2 ⟨p, hp, by simp [hfst]⟩)
    simp only [List.map_append, List.map_cons, List.map_nil]
    refine List.Nodup.append h (List.nodup_singleton k) ?_
    intro a ha hb
    rw [List.mem_singleton] at hb
    exact hk (hb ▸ ha)

theorem mapSet_entry_mem (m : List (String × RemoteItem)) (k : String) (v : RemoteItem)
    (q : String × RemoteItem) (hq : q ∈ mapSet m k v) : q ∈ m ∨ q = (k, v) := by
  unfold mapSet at hq
  split at hq
  · obtain ⟨p, hp, hpq⟩ := List.mem_map.1 hq
    by_cases hb : (p.1 == k) = true
    · right; rw [← hpq]; simp [hb]
    · left; rw [← hpq]; simpa [hb] using hp
  · rcases List.mem_append.1 hq with h | h
    · exact Or.inl h
    · exact Or.inr (by simpa using h)

theorem buildStep_keys_mem (allowed : List String) (items : List RemoteItem) :
    ∀ (m : List (String × RemoteItem)) (o : List String),
      (∀ x, x ∈ m.map Prod.fst ↔ x ∈ o) →
      ∀ x, x ∈ (items.foldl (buildStep allowed) (m, o)).1.map Prod.fst
        ↔ x ∈ (items.foldl (buildStep allowed) (m, o)).2 := by
  induction items with
  | nil => intro m o h x; simpa using h x
  | cons it rest ih =>
    intro m o h x
    rw [List.foldl_cons]
    cases hf : fileNameOf allowed it with
    | none =>
      have : buildStep allowed (m, o) it = (m, o) := by rw [buildStep, hf]
      rw [this]
      exact ih m o h x
    | some fn =>
      have : buildStep allowed (m, o) it = (mapSet m fn it, o ++ [fn]) := by
        rw [buildStep, hf]
      rw [this]
      refine ih (mapSet m fn it) (o ++ [fn]) (fun y => ?_) x
      rw [mapSet_keys_mem, h y]
      simp [or_comm]

theorem desiredKeys_mem_iff (e : Env) (children : List RawChild) (x : String) :
    x ∈ desiredKeys e children ↔ x ∈ orderedNames e children := by
  unfold desiredKeys desiredMap orderedNames
  rw [buildDesired_eq_foldl]
  exact buildStep_keys_mem (allowedExts e) (itemsOf e children) [] [] (by simp) x

theorem buildStep_keys_nodup (allowed : List String) (items : List RemoteItem) :
    ∀ (m : List (String × RemoteItem)) (o : List String),
      (m.map Prod.fst).Nodup →
      ((items.foldl (buildStep allowed) (m, o)).1.map Prod.fst).Nodup := by
  induction items with
  | nil => intro m o h; simpa using h
  | cons it rest ih =>
    intro m o h
    rw [List.foldl_cons]
    cases hf : fileNameOf allowed it with
    | none =>
      have : buildStep allowed (m, o) it = (m, o) := by rw [buildStep, hf]
      rw [this]
      exact ih m o h
    | some fn =>
      have : buildStep allowed (m, o) it = (mapSet m fn it, o ++ [fn]) := by
        rw [buildStep, hf]
      rw [this]
      exact ih (mapSet m fn it) (o ++ [fn]) (mapSet_keys_nodup m fn it h)

theorem desiredKeys_nodup (e : Env) (children : List RawChild) :
    (desiredKeys e children).Nodup := by
  unfold desiredKeys desiredMap
  rw [buildDesired_eq_foldl]
  exact buildStep_keys_nodup (allowedExts e) (itemsOf e children) [] [] (by simp)

theorem buildStep_entry_mem (allowed : List String) (items : List RemoteItem) :
    ∀ (m : List (String × RemoteItem)) (o : List String) (q : String × RemoteItem),
      q ∈ (items.foldl (buildStep allowed) (m, o)).1 →
      q ∈ m ∨ (q.2 ∈ items ∧ fileNameOf allowed q.2 = some q.1) := by
  induction items with
  | nil => intro m o q hq; exact Or.inl (by simpa using hq)
  | cons it rest ih =>
    intro m o q hq
    rw [List.foldl_cons] at hq
    cases hf : fileNameOf allowed it with
    | none =>
      have hstep : buildStep allowed (m, o) it = (m, o) := by rw [buildStep, hf]
      rw [hstep] at hq
      rcases ih m o q hq with h | ⟨h1, h2⟩
      · exact Or.inl h
      · exact Or.inr ⟨List.mem_cons_of_mem it h1, h2⟩
    | some fn =>
      have hstep : buildStep allowed (m, o) it = (mapSet m fn it, o ++ [fn]) := by
        rw [buildStep, hf]
      rw [hstep] at hq
      rcases ih (mapSet m fn it) (o ++ [fn]) q hq with h | ⟨h1, h2⟩
      · rcases mapSet_entry_mem m fn it q h with h' | h'
        · exact Or.inl h'
        · subst h'
          exact Or.inr ⟨List.mem_cons_self it rest, hf⟩
      · exact Or.inr ⟨List.mem_cons_of_mem it h1, h2⟩

/-- Step function of the download loop. -/
def downStep (acc : List String × List String × List Event)
    (entry : String × RemoteItem) : List String × List String × List Event :=
  if acc.1.contains entry.1 then acc
  else
    (acc.1 ++ [entry.1], acc.2.1 ++ [entry.1],
     acc.2.2 ++ [Event.netCall entry.2.downloadUrl,
                 Event.fsWrite (GALLERY_DIR ++ "/" ++ entry.1)])

theorem downloadPhase_eq_foldl (dir0 : List String) (m : List (String × RemoteItem)) :
    downloadPhase dir0 m = m.foldl downStep (dir0, [], []) := by
  unfold downloadPhase downStep
  rfl

theorem downStep_skip (d dl : List String) (ev : List Event)
    (entry : String × RemoteItem) (hc : entry.1 ∈ d) :
    downStep (d, dl, ev) entry = (d, dl, ev) := by
  unfold downStep
  simp only [(strContains_iff d entry.1).2 hc, if_true]

theorem downStep_fetch (d dl : List String) (ev : List Event)
    (entry : String × RemoteItem) (hc : entry.1 ∉ d) :
    downStep (d, dl, ev) entry =
      (d ++ [entry.1], dl ++ [entry.1],
       ev ++ [Event.netCall entry.2.downloadUrl,
              Event.fsWrite (GALLERY_DIR ++ "/" ++ entry.1)]) := by
  unfold downStep
  have : d.contains entry.1 = false :=
    Bool.eq_false_iff.2 fun h => hc ((strContains_iff d entry.1).1 h)
  simp only [this, Bool.false_eq_true, if_false]

theorem downStep_files_mem (m : List (String × RemoteItem)) :
    ∀ (d dl : List String) (ev : List Event) (x : String),
      x ∈ (m.foldl downStep (d, dl, ev)).1 ↔ x ∈ d ∨ x ∈ m.map Prod.fst := by
  induction m with
  | nil => intro d dl ev x; simp
  | cons entry rest ih =>
    intro d dl ev x
    rw [List.foldl_cons, List.map_cons]
    by_cases hc : entry.1 ∈ d
    · rw [downStep_skip d dl ev entry hc, ih]
      constructor
      · rintro (h | h)
        · exact Or.inl h
        · exact Or.inr (List.mem_cons_of_mem _ h)
      · rintro (h | h)
        · exact Or.inl h
        · rcases List.mem_cons.1 h with rfl | h'
          · exact Or.inl hc
          · exact Or.inr h'
    · rw [downStep_fetch d dl ev entry hc, ih]
      constructor
      · rintro (h | h)
        · rcases List.mem_append.1 h with h' | h'
          · exact Or.inl h'
          · exact Or.inr (List.mem_cons.2 (Or.inl (List.mem_singleton.1 h')))
        · exact Or.inr (List.mem_cons_of_mem _ h)
      · rintro (h | h)
        · exact Or.inl (List.mem_append.2 (Or.inl h))
        · rcases List.mem_cons.1 h with rfl | h'
          · exact Or.inl (List.mem_append.2 (Or.inr (List.mem_singleton.2 rfl)))
          · exact Or.inr h'

theorem downStep_acc (m : List (String × RemoteItem)) :
    ∀ (d dl : List String) (ev : List Event),
      m.foldl downStep (d, dl, ev) =
        ((m.foldl downStep (d, [], [])).1,
         dl ++ (m.foldl downStep (d, [], [])).2.1,
         ev ++ (m.foldl downStep (d, [], [])).2.2) := by
  induction m with
  | nil => intro d dl ev; simp
  | cons entry rest ih =>
    intro d dl ev
    rw [List.foldl_cons, List.foldl_cons]
    by_cases hc : entry.1 ∈ d
    · rw [downStep_skip d dl ev entry hc, downStep_skip d [] [] entry hc]
      exact ih d dl ev
    · rw [downStep_fetch d dl ev entry hc, downStep_fetch d [] [] entry hc]
      simp only [List.nil_append]
      rw [ih (d ++ [entry.1]) (dl ++ [entry.1]), ih (d ++ [entry.1]) [entry.1]]
      simp [List.append_assoc]

theorem downStep_acc_downloads (m : List (String × RemoteItem)) (d dl : List String)
    (ev : List Event) :
    (m.foldl downStep (d, dl, ev)).2.1 = dl ++ (m.foldl downStep (d, [], [])).2.1 := by
  rw [downStep_acc]

theorem downStep_downloads_iff (m : List (String × RemoteItem)) :
    ∀ d : List String, (m.map Prod.fst).Nodup →
      ∀ x, x ∈ (m.foldl downStep (d, [], [])).2.1 ↔ x ∈ m.map Prod.fst ∧ x ∉ d := by
  induction m with
  | nil => intro d _ x; simp
  | cons entry rest ih =>
    intro d hnd x
    rw [List.map_cons] at hnd
    have hnd' : (rest.map Prod.fst).Nodup := (List.nodup_cons.1 hnd).2
    have hne : entry.1 ∉ rest.map Prod.fst := (List.nodup_cons.1 hnd).1
    rw [List.foldl_cons, List.map_cons]
    by_cases hc : entry.1 ∈ d
    · rw [downStep_skip d [] [] entry hc, ih d hnd']
      constructor
      · rintro ⟨h1, h2⟩
        exact ⟨List.mem_cons_of_mem _ h1, h2⟩
      · rintro ⟨h1, h2⟩
        rcases List.mem_cons.1 h1 with rfl | h'
        · exact absurd hc h2
        · exact ⟨h', h2⟩
    · rw [downStep_fetch d [] [] entry hc]
      simp only [List.nil_append]
      rw [downStep_acc_downloads rest (d ++ [entry.1]) [entry.1]]
      constructor
      · intro h
        rcases List.mem_append.1 h with h' | h'
        · rw [List.mem_singleton] at h'
          subst h'
          exact ⟨List.mem_cons_self _ _, hc⟩
        · obtain ⟨h1, h2⟩ := (ih (d ++ [entry.1]) hnd' x).1 h'
          exact ⟨List.mem_cons_of_mem _ h1, fun hx => h2 (List.mem_append.2 (Or.inl hx))⟩
      · rintro ⟨h1, h2⟩
        rcases List.mem_cons.1 h1 with rfl | h'
        · exact List.mem_append.2 (Or.inl (List.mem_singleton.2 rfl))
        · refine List.mem_append.2 (Or.inr ((ih (d ++ [entry.1]) hnd' x).2 ⟨h', fun hx => ?_⟩))
          rcases List.mem_append.1 hx with hx' | hx'
          · exact h2 hx'
          · rw [List.mem_singleton] at hx'
            subst hx'
            exact hne h'

theorem downloadPhase_files_mem (dir0 : List String) (m : List (String × RemoteItem))
    (x : String) :
    x ∈ (downloadPhase dir0 m).1 ↔ x ∈ dir0 ∨ x ∈ m.map Prod.fst := by
  rw [downloadPhase_eq_foldl]
  exact downStep_files_mem m dir0 [] [] x

theorem downloadPhase_downloads_iff (dir0 : List String) (m : List (String × RemoteItem))
    (hnd : (m.map Prod.fst).Nodup) (x : String) :
    x ∈ (downloadPhase dir0 m).2.1 ↔ x ∈ m.map Prod.fst ∧ x ∉ dir0 := by
  rw [downloadPhase_eq_foldl]
  exact downStep_downloads_iff m dir0 hnd x

theorem downloadPhase_all_present (dir0 : List String) (m : List (String × RemoteItem))
    (hnd : (m.map Prod.fst).Nodup) (h : ∀ k ∈ m.map Prod.fst, k ∈ dir0) :
    (downloadPhase dir0 m).2.1 = [] := by
  rw [List.eq_nil_iff_forall_not_mem]
  intro x hx
  obtain ⟨h1, h2⟩ := (downloadPhase_downloads_iff dir0 m hnd x).1 hx
  exact h2 (h x h1)

theorem deletePhase_of_false (files keys : List String) :
    deletePhase false files keys = (files, [], []) := rfl

theorem deletePhase_of_true (files keys : List String) :
    deletePhase true files keys =
      (files.filter (fun f => !(isImageFile f && !keys.contains f)),
       files.filter (fun f => isImageFile f && !keys.contains f),
       (files.filter (fun f => isImageFile f && !keys.contains f)).map
         fun f => Event.fsDelete (GALLERY_DIR ++ "/" ++ f)) := rfl

theorem delPredNeg_iff (keys : List String) (x : String) :
    (!(isImageFile x && !keys.contains x)) = true ↔ (isImageFile x = true → x ∈ keys) := by
  by_cases hk : x ∈ keys
  · simp [(strContains_iff keys x).2 hk, hk]
  · have hkc : keys.contains x = false :=
      Bool.eq_false_iff.2 fun h => hk ((strContains_iff keys x).1 h)
    cases hb : isImageFile x <;> simp [hkc, hb, hk]

theorem delPredPos_iff (keys : List String) (x : String) :
    (isImageFile x && !keys.contains x) = true ↔ isImageFile x = true ∧ x ∉ keys := by
  by_cases hk : x ∈ keys
  · simp [(strContains_iff keys x).2 hk, hk]
  · have hkc : keys.contains x = false :=
      Bool.eq_false_iff.2 fun h => hk ((strContains_iff keys x).1 h)
    cases hb : isImageFile x <;> simp [hkc, hb, hk]

theorem deletePhase_files_mem (dm : Bool) (files keys : List String) (x : String) :
    x ∈ (deletePhase dm files keys).1 ↔
      x ∈ files ∧ (dm = true → isImageFile x = true → x ∈ keys) := by
  cases dm with
  | false => simp [deletePhase_of_false]
  | true =>
    simp only [deletePhase_of_true]
    rw [List.mem_filter, delPredNeg_iff]
    simp

theorem syncMain_snd_of_guards (e : Env) (remote : Remote) (dir0 : List String)
    (hg : guardsOk e remote = true) :
    (syncMain e remote dir0).2 = Except.ok (runResultOf e remote dir0) := by
  unfold guardsOk at hg
  simp only [Bool.and_eq_true] at hg
  obtain ⟨⟨⟨⟨⟨⟨⟨ha, hb⟩, hc⟩, hd⟩, htok⟩, hdrv⟩, hfol⟩, hlst⟩ := hg
  unfold syncMain
  simp only [ha, hb, hc, hd, htok, hdrv, hfol, hlst, Bool.not_true, Bool.or_self,
    Bool.or_false, Bool.false_or, Bool.false_eq_true, if_false, ite_false]
  rfl

theorem syncMain_ok_elim (e : Env) (remote : Remote) (dir0 : List String)
    (ev : List Event) (res : RunResult)
    (h : syncMain e remote dir0 = (ev, Except.ok res)) :
    guardsOk e remote = true ∧ res = runResultOf e remote dir0 := by
  by_cases ha : jsTruthy e.TENANT_ID = true
  · by_cases hb : jsTruthy e.CLIENT_ID = true
    · by_cases hc : jsTruthy e.CLIENT_SECRET = true
      · by_cases hd : jsTruthy e.SP_FOLDER_SHARE_URL = true
        · by_cases htok : remote.tokenOk = true
          · by_cases hdrv : jsTruthy remote.driveId = true
            · by_cases hfol : jsTruthy remote.folderId = true
              · by_cases hlst : remote.listOk = true
                · have hg : guardsOk e remote = true := by
                    unfold guardsOk
                    rw [ha, hb, hc, hd, htok, hdrv, hfol, hlst]
                    rfl
                  have heq := syncMain_snd_of_guards e remote dir0 hg
                  have h2 : (Except.ok res : Except String RunResult)
                      = Except.ok (runResultOf e remote dir0) := by
                    rw [← heq, h]
                  exact ⟨hg, Except.ok.inj h2⟩
                · rw [Bool.not_eq_true] at hlst
                  unfold syncMain at h
                  simp [ha, hb, hc, hd, htok, hdrv, hfol, hlst] at h
              · rw [Bool.not_eq_true] at hfol
                unfold syncMain at h
                simp [ha, hb, hc, hd, htok, hdrv, hfol] at h
            · rw [Bool.not_eq_true] at hdrv
              unfold syncMain at h
              simp [ha, hb, hc, hd, htok, hdrv] at h
          · rw [Bool.not_eq_true] at htok
            unfold syncMain at h
            simp [ha, hb, hc, hd, htok] at h
        · rw [Bool.not_eq_true] at hd
          unfold syncMain at h
          simp [hd] at h
      · rw [Bool.not_eq_true] at hc
        unfold syncMain at h
        simp [hc] at h
    · rw [Bool.not_eq_true] at hb
      unfold syncMain at h
      simp [hb] at h
  · rw [Bool.not_eq_true] at ha
    unfold syncMain at h
    simp [ha] at h

theorem deletePhase_deleted_mem (dm : Bool) (files keys : List String) (x : String) :
    x ∈ (deletePhase dm files keys).2.1 ↔
      dm = true ∧ x ∈ files ∧ isImageFile x = true ∧ x ∉ keys := by
  cases dm with
  | false => simp [deletePhase_of_false]
  | true =>
    simp only [deletePhase_of_true]
    rw [List.mem_filter, delPredPos_iff]
    simp [and_assoc]

/-- Mime-type fallback table of `extFromName`, named separately so the claims
can refer to it: first match among the substrings `jpeg`, `jpg`, `png`,
`webp`. -/
def mimeExt (mimeType : String) : String :=
  let mt := strToLower mimeType
  if strIncludes mt "jpeg" then "jpeg"
  else if strIncludes mt "jpg" then "jpg"
  else if strIncludes mt "png" then "png"
  else if strIncludes mt "webp" then "webp"
  else ""

/-- Default allowed-extension list. -/
def defaultExts : List String := ["jpg", "jpeg", "png", "webp"]

/-- Child entry builder for the concrete runs below. -/
def exChild (i n mt : String) : RawChild :=
  { id := some i, name := n, fileMimeType := some mt,
    downloadUrl := some ("https://dl.example/" ++ i),
    createdDateTime := none, lastModifiedDateTime := none }

/-- Environment with all required variables set and mirror-delete enabled. -/
def exEnvDelete : Env :=
  { TENANT_ID := some "tenant", CLIENT_ID := some "client",
    CLIENT_SECRET := some "secret",
    SP_FOLDER_SHARE_URL := some "https://sp.example/f",
    DELETE_MISSING := some "true", MAX_IMAGES := none, INCLUDE_EXTS := none,
    INDEX_FILE := none }

/-- Same environment with mirror-delete left unset. -/
def exEnvPlain : Env := { exEnvDelete with DELETE_MISSING := none }

/-- Remote folder holding items `C.webp` and `B.png` (listed out of order, so
the sort matters). -/
def exRemoteBC : Remote :=
  { tokenOk := true, driveId := some "drive", folderId := some "folder",
    listOk := true,
    children := [exChild "C" "C.webp" "image/webp", exChild "B" "B.png" "image/png"] }

/-- Mirror-delete environment truncated to a single item. -/
def exEnvMax1 : Env := { exEnvDelete with MAX_IMAGES := some "1" }

/-- Remote folder holding items `a.png` and `b.png`. -/
def exRemoteAB : Remote :=
  { tokenOk := true, driveId := some "drive", folderId := some "folder",
    listOk := true,
    children := [exChild "A" "a.png" "image/png", exChild "B" "b.png" "image/png"] }

/-- Environment restricting the allowed extensions to `png` only. -/
def exEnvPngOnly : Env := { exEnvPlain with INCLUDE_EXTS := some "png" }

/-- Remote folder holding a single `a.jpg` item of type `image/jpeg`. -/
def exRemoteJpg : Remote :=
  { tokenOk := true, driveId := some "drive", folderId := some "folder",
    listOk := true, children := [exChild "X" "a.jpg" "image/jpeg"] }

/-! Auxiliary lemmas for the share-identity claim. -/

theorem replUrlSafe_ne (c : Char) : replUrlSafe c ≠ '+' ∧ replUrlSafe c ≠ '/' := by
  unfold replUrlSafe
  by_cases h1 : (c == '+') = true
  · simp [h1]
  · by_cases h2 : (c == '/') = true
    · simp [h1, h2]
    · rw [if_neg (by simp [h1]), if_neg (by simp [h2])]
      exact ⟨by simpa using h1, by simpa using h2⟩

theorem mem_stripTrailingEq (l : List Char) (x : Char) (h : x ∈ stripTrailingEq l) :
    x ∈ l := by
  unfold stripTrailingEq at h
  rw [List.mem_reverse] at h
  exact List.mem_reverse.1 ((List.dropWhile_sublist _).subset h)

theorem head_dropWhile_neg (p : α → Bool) :
    ∀ (l : List α) (a : α), (l.dropWhile p).head? = some a → p a = false := by
  intro l
  induction l with
  | nil => intro a h; simp [List.dropWhile] at h
  | cons c cs ih =>
    intro a h
    rw [List.dropWhile_cons] at h
    by_cases hc : p c = true
    · rw [if_pos hc] at h
      exact ih a h
    · rw [if_neg hc] at h
      rw [List.head?_cons, Option.some.injEq] at h
      subst h
      exact Bool.eq_false_iff.2 hc

theorem getLast_stripTrailingEq (l : List Char) (c : Char)
    (h : (stripTrailingEq l).getLast? = some c) : (c == '=') = false := by
  unfold stripTrailingEq at h
  rw [List.getLast?_reverse] at h
  exact head_dropWhile_neg _ _ c h

/-! Claim theorems. -/

/-- C4: the share-identity transform is a pure deterministic function of the
input URL; its output contains no `+`, no `/`, and no trailing `=`; and it is
the base64 encoding of the URL with `+` replaced by `-`, `/` replaced by `_`,
trailing `=` padding stripped, and the fixed two-character prefix `u!`
prepended. -/
theorem toShareId_urlsafe : ∀ url : String,
    (∀ url2, url2 = url → toShareId url2 = toShareId url) ∧
    '+' ∉ (toShareId url).data ∧
    '/' ∉ (toShareId url).data ∧
    (toShareId url).data.getLast? ≠ some '=' ∧
    toShareId url =
      "u!" ++ String.mk (stripTrailingEq ((b64EncodeBytes (utf8Bytes url)).map replUrlSafe)) := by
  intro url
  refine ⟨fun url2 h => h ▸ rfl, ?_, ?_, ?_, rfl⟩
  · intro hmem
    rcases List.mem_cons.1 hmem with h | hmem
    · exact absurd h (by decide)
    rcases List.mem_cons.1 hmem with h | hmem
    · exact absurd h (by decide)
    obtain ⟨y, -, hy⟩ :=
      List.mem_map.1 (mem_stripTrailingEq _ _ hmem)
    exact (replUrlSafe_ne y).1 hy
  · intro hmem
    rcases List.mem_cons.1 hmem with h | hmem
    · exact absurd h (by decide)
    rcases List.mem_cons.1 hmem with h | hmem
    · exact absurd h (by decide)
    obtain ⟨y, -, hy⟩ :=
      List.mem_map.1 (mem_stripTrailingEq _ _ hmem)
    exact (replUrlSafe_ne y).2 hy
  · cases hS : stripTrailingEq ((b64EncodeBytes (utf8Bytes url)).map replUrlSafe) with
    | nil =>
      show (('u' :: '!' :: stripTrailingEq _).getLast? ≠ some '=')
      rw [hS]
      decide
    | cons s ss =>
      show (('u' :: '!' :: stripTrailingEq _).getLast? ≠ some '=')
      rw [hS, List.getLast?_cons_cons, List.getLast?_cons_cons]
      intro hlast
      have := getLast_stripTrailingEq ((b64EncodeBytes (utf8Bytes url)).map replUrlSafe) '='
        (by rw [hS]; exact hlast)
      simp at this

/-- C6: if any of the four required configuration variables is missing or
empty, the run throws the configuration error before performing any work at
all: the event trace is empty, so no network call and no directory creation
happens. -/
theorem missing_env_fails_first : ∀ (e : Env) (remote : Remote) (dir0 : List String),
    (jsTruthy e.TENANT_ID = false ∨ jsTruthy e.CLIENT_ID = false ∨
     jsTruthy e.CLIENT_SECRET = false ∨ jsTruthy e.SP_FOLDER_SHARE_URL = false) →
    syncMain e remote dir0 =
      ([], Except.error
        "Missing required env vars: TENANT_ID, CLIENT_ID, CLIENT_SECRET, SP_FOLDER_SHARE_URL") := by
  intro e remote dir0 h
  unfold syncMain
  rcases h with h | h | h | h <;> simp [h]

/-- Witness for C6 at a concrete environment with an unset shared-folder URL. -/
theorem missing_env_fails_first_witness :
    jsTruthy (Env.SP_FOLDER_SHARE_URL { exEnvDelete with SP_FOLDER_SHARE_URL := none }) = false ∧
    syncMain { exEnvDelete with SP_FOLDER_SHARE_URL := none } exRemoteBC ["A.jpg"] =
      ([], Except.error
        "Missing required env vars: TENANT_ID, CLIENT_ID, CLIENT_SECRET, SP_FOLDER_SHARE_URL") :=
  ⟨by decide,
   missing_env_fails_first { exEnvDelete with SP_FOLDER_SHARE_URL := none } exRemoteBC
     ["A.jpg"] (Or.inr (Or.inr (Or.inr (by decide))))⟩

/-- C8: every optional parameter falls back to its documented default when
unset: mirror-delete to `false`, the maximum item count to `200` (also for a
set but non-finite value — the `Number.isFinite` gate), the allowed
extensions to `jpg`, `jpeg`, `png`, `webp`, and the manifest path to
`assets/gallery/index.json` inside the asset directory.  The closing
conjuncts pin the maximum-count parse down: JS-numeric forms such as `1e3`,
`0x10` and `2.5` parse to their (truncated) values rather than falling back,
while genuinely non-numeric and `Infinity` values are the `none` the default
clause quantifies over. -/
theorem optional_defaults :
    (∀ e : Env,
      (e.DELETE_MISSING = none → deleteMissing e = false) ∧
      (e.MAX_IMAGES = none → MAX e = 200) ∧
      (∀ s, e.MAX_IMAGES = some s → jsNumberInt (some s) = none → MAX e = 200) ∧
      (e.INCLUDE_EXTS = none → allowedExts e = defaultExts) ∧
      (e.INDEX_FILE = none → INDEX_PATH e = GALLERY_DIR ++ "/index.json")) ∧
    jsNumberInt (some "plenty") = none ∧
    jsNumberInt (some "Infinity") = none ∧
    jsNumberInt (some "1e3") = some 1000 ∧
    jsNumberInt (some "0x10") = some 16 ∧
    jsNumberInt (some "2.5") = some 2 := by
  refine ⟨?_, by decide, by decide, by decide, by decide, by decide⟩
  intro e
  refine ⟨fun h => ?_, fun h => ?_, fun s hs h => ?_, fun h => ?_, fun h => ?_⟩
  · simp only [deleteMissing, h]
    rfl
  · simp only [MAX, h]
    rfl
  · simp only [MAX, hs, h]
    rfl
  · simp only [allowedExts, h]
    rfl
  · simp only [INDEX_PATH, h]
    rfl

/-- Skipped example item: its name extension `txt` is not allowed and its
mime type matches no fallback entry. -/
def exItemSkip : RemoteItem :=
  { id := "S", name := "notes.txt", mimeType := "text/plain",
    downloadUrl := "https://dl.example/S", created := "", lastModified := "" }

/-- Example item whose name extension `jpg` can be disallowed while its mime
type still derives `jpeg` (the item behind `exRemoteJpg`). -/
def exItemJpg : RemoteItem :=
  { id := "X", name := "a.jpg", mimeType := "image/jpeg",
    downloadUrl := "https://dl.example/X", created := "", lastModified := "" }

theorem extFromName_fallback (allowed : List String) (name mimeType : String)
    (h : allowed.contains (nameExt name) = false) :
    extFromName allowed name mimeType = mimeExt mimeType := by
  have hnm : nameExt name ∉ allowed := fun hm =>
    Bool.false_ne_true (h ▸ (strContains_iff allowed (nameExt name)).2 hm)
  unfold extFromName mimeExt
  simp [hnm]

theorem buildDesired_keys_mem (allowed : List String) (items : List RemoteItem)
    (x : String) :
    x ∈ (buildDesired allowed items).1.map Prod.fst ↔ x ∈ (buildDesired allowed items).2 := by
  rw [buildDesired_eq_foldl]
  exact buildStep_keys_mem allowed items [] [] (by simp) x

/-- C1: with mirror-delete enabled, a run that completes without failure
leaves the local directory exactly equal to the desired set on image files:
every desired filename is present (downloaded exactly when it was absent,
skipped when present), and every local image file whose name is not a desired
key is deleted; concretely, local `A.jpg, B.png` with desired
`B.png, C.webp` ends as exactly `B.png, C.webp`. -/
theorem mirror_delete_exact :
    (∀ (e : Env) (remote : Remote) (dir0 : List String) (ev : List Event) (res : RunResult),
      deleteMissing e = true →
      syncMain e remote dir0 = (ev, Except.ok res) →
      (∀ k ∈ desiredKeys e remote.children, k ∈ res.files) ∧
      (∀ k ∈ desiredKeys e remote.children, (k ∈ res.downloads ↔ k ∉ dir0)) ∧
      (∀ f ∈ res.files, isImageFile f = true → f ∈ desiredKeys e remote.children)) ∧
    (syncMain exEnvDelete exRemoteBC ["A.jpg", "B.png"]).2 =
      Except.ok { files := ["B.png", "C.webp"], downloads := ["C.webp"],
                  deleted := ["A.jpg"], manifest := ["B.png", "C.webp"],
                  indexPath := "assets/gallery/index.json" } := by
  refine ⟨?_, by rfl⟩
  intro e remote dir0 ev res hdm hok
  obtain ⟨-, hres⟩ := syncMain_ok_elim e remote dir0 ev res hok
  subst hres
  simp only [runResultOf]
  refine ⟨?_, ?_, ?_⟩
  · intro k hk
    rw [deletePhase_files_mem]
    refine ⟨?_, fun _ _ => hk⟩
    rw [downloadPhase_files_mem]
    exact Or.inr hk
  · intro k hk
    rw [downloadPhase_downloads_iff dir0 (desiredMap e remote.children)
      (desiredKeys_nodup e remote.children) k]
    exact ⟨fun h => h.2, fun h => ⟨hk, h⟩⟩
  · intro f hf him
    exact ((deletePhase_files_mem _ _ _ f).1 hf).2 hdm him

/-- Witness for C1: the spec's mirroring example, run concretely. -/
theorem mirror_delete_exact_witness :
    (∀ k ∈ desiredKeys exEnvDelete exRemoteBC.children,
        k ∈ (runResultOf exEnvDelete exRemoteBC ["A.jpg", "B.png"]).files) ∧
    (∀ k ∈ desiredKeys exEnvDelete exRemoteBC.children,
        (k ∈ (runResultOf exEnvDelete exRemoteBC ["A.jpg", "B.png"]).downloads ↔
          k ∉ ["A.jpg", "B.png"])) ∧
    (∀ f ∈ (runResultOf exEnvDelete exRemoteBC ["A.jpg", "B.png"]).files,
        isImageFile f = true → f ∈ desiredKeys exEnvDelete exRemoteBC.children) :=
  mirror_delete_exact.1 exEnvDelete exRemoteBC ["A.jpg", "B.png"]
    (syncMain exEnvDelete exRemoteBC ["A.jpg", "B.png"]).1
    (runResultOf exEnvDelete exRemoteBC ["A.jpg", "B.png"])
    (by decide)
    (by rw [← syncMain_snd_of_guards exEnvDelete exRemoteBC ["A.jpg", "B.png"] (by decide)])

/-- C2: the manifest of a completed run is exactly the items sorted ascending
by the numeric-aware name comparison, truncated to the configured maximum and
mapped to derived filenames; the insertion sort really sorts (ascending and a
permutation), and numerically `img2` precedes `img10`. -/
theorem manifest_is_sorted_truncation :
    (∀ (e : Env) (remote : Remote) (dir0 : List String) (ev : List Event) (res : RunResult),
      syncMain e remote dir0 = (ev, Except.ok res) →
      res.manifest = specManifest e remote.children) ∧
    (∀ l : List RemoteItem,
      List.Sorted itemLe (List.insertionSort itemLe l)
        ∧ (List.insertionSort itemLe l).Perm l) ∧
    nameCmp "img2" "img10" = Ordering.lt := by
  refine ⟨?_,
    fun l => ⟨List.sorted_insertionSort itemLe l, List.perm_insertionSort itemLe l⟩,
    by decide⟩
  intro e remote dir0 ev res hok
  obtain ⟨-, hres⟩ := syncMain_ok_elim e remote dir0 ev res hok
  subst hres
  simp only [runResultOf]
  unfold orderedNames specManifest
  rw [buildDesired_snd]
  rfl

/-- Witness for C2 at a concrete environment and listing. -/
theorem manifest_is_sorted_truncation_witness :
    (runResultOf exEnvPlain exRemoteBC []).manifest
      = specManifest exEnvPlain exRemoteBC.children :=
  manifest_is_sorted_truncation.1 exEnvPlain exRemoteBC []
    (syncMain exEnvPlain exRemoteBC []).1 (runResultOf exEnvPlain exRemoteBC [])
    (by rw [← syncMain_snd_of_guards exEnvPlain exRemoteBC [] (by decide)])

/-- C3: the derived extension is the display-name extension when present and
allowed (case-insensitively, witnessed by `PHOTO.JPG`), otherwise the first
match of the mime substring table, otherwise the item is skipped entirely:
it is no value of the desired mapping and contributes nothing to the manifest
(which is exactly the filterMap of the per-item filename derivation). -/
theorem ext_derivation_rule :
    (∀ (allowed : List String) (name mimeType : String),
        nameExt name ≠ "" → allowed.contains (nameExt name) = true →
        extFromName allowed name mimeType = nameExt name) ∧
    (∀ (allowed : List String) (name mimeType : String),
        allowed.contains (nameExt name) = false →
        extFromName allowed name mimeType = mimeExt mimeType) ∧
    extFromName defaultExts "photo" "image/png" = "png" ∧
    extFromName defaultExts "photo.xyz" "image/webp" = "webp" ∧
    extFromName defaultExts "PHOTO.JPG" "text/plain" = "jpg" ∧
    (∀ (allowed : List String) (items : List RemoteItem) (it : RemoteItem),
        extFromName allowed it.name it.mimeType = "" →
        (∀ p ∈ (buildDesired allowed items).1, p.2 ≠ it) ∧
        (buildDesired allowed items).2 = items.filterMap (fileNameOf allowed) ∧
        fileNameOf allowed it = none) := by
  refine ⟨?_, ?_, by decide, by decide, by decide, ?_⟩
  · intro allowed name mt h1 h2
    have hne : (nameExt name).isEmpty = false := by
      cases h : (nameExt name).isEmpty
      · rfl
      · exact absurd ((String.isEmpty_iff _).1 h) h1
    have hmem : nameExt name ∈ allowed := (strContains_iff allowed (nameExt name)).1 h2
    unfold extFromName
    simp [hne, hmem]
  · intro allowed name mt h
    have hnm : nameExt name ∉ allowed := fun hm =>
      Bool.false_ne_true (h ▸ (strContains_iff allowed (nameExt name)).2 hm)
    unfold extFromName mimeExt
    simp [hnm]
  · intro allowed items it hext
    have hfn : fileNameOf allowed it = none := by
      unfold fileNameOf
      rw [hext]
      rfl
    refine ⟨?_, buildDesired_snd allowed items, hfn⟩
    intro p hp hpe
    rw [buildDesired_eq_foldl] at hp
    rcases buildStep_entry_mem allowed items [] [] p hp with h | ⟨-, h2⟩
    · exact absurd h (List.not_mem_nil p)
    · rw [hpe, hfn] at h2
      exact Option.noConfusion h2

/-- Witness for C3: both derivation branches and a fully skipped item, at
concrete inputs. -/
theorem ext_derivation_rule_witness :
    extFromName ["png"] "photo.png" "image/webp" = nameExt "photo.png" ∧
    extFromName ["png"] "photo.xyz" "image/webp" = mimeExt "image/webp" ∧
    ((∀ p ∈ (buildDesired ["png"] [exItemSkip]).1, p.2 ≠ exItemSkip) ∧
     (buildDesired ["png"] [exItemSkip]).2
        = [exItemSkip].filterMap (fileNameOf ["png"]) ∧
     fileNameOf ["png"] exItemSkip = none) :=
  ⟨ext_derivation_rule.1 ["png"] "photo.png" "image/webp" (by decide) (by decide),
   ext_derivation_rule.2.1 ["png"] "photo.xyz" "image/webp" (by decide),
   ext_derivation_rule.2.2.2.2.2 ["png"] [exItemSkip] exItemSkip (by decide)⟩

/-- C5: a second run against an unchanged remote with mirror-delete disabled
performs zero downloads (presence of the exact derived filename is the sole
test) and writes an identical manifest. -/
theorem second_run_no_downloads :
    ∀ (e : Env) (remote : Remote) (dir0 : List String) (ev1 : List Event) (res1 : RunResult),
      deleteMissing e = false →
      syncMain e remote dir0 = (ev1, Except.ok res1) →
      ∃ ev2 res2, syncMain e remote res1.files = (ev2, Except.ok res2) ∧
        res2.downloads = [] ∧ res2.manifest = res1.manifest := by
  intro e remote dir0 ev1 res1 hdm hok
  obtain ⟨hg, hres⟩ := syncMain_ok_elim e remote dir0 ev1 res1 hok
  refine ⟨(syncMain e remote res1.files).1, runResultOf e remote res1.files,
    by rw [← syncMain_snd_of_guards e remote res1.files hg], ?_, ?_⟩
  · simp only [runResultOf]
    apply downloadPhase_all_present res1.files (desiredMap e remote.children)
      (desiredKeys_nodup e remote.children)
    intro k hk
    rw [hres]
    simp only [runResultOf, hdm, deletePhase_of_false]
    rw [downloadPhase_files_mem]
    exact Or.inr hk
  · rw [hres]
    rfl

/-- Witness for C5 at a concrete environment and listing, starting from an
empty directory. -/
theorem second_run_no_downloads_witness :
    ∃ ev2 res2,
      syncMain exEnvPlain exRemoteBC (runResultOf exEnvPlain exRemoteBC []).files
        = (ev2, Except.ok res2) ∧
      res2.downloads = [] ∧
      res2.manifest = (runResultOf exEnvPlain exRemoteBC []).manifest :=
  second_run_no_downloads exEnvPlain exRemoteBC []
    (syncMain exEnvPlain exRemoteBC []).1 (runResultOf exEnvPlain exRemoteBC [])
    (by decide)
    (by rw [← syncMain_snd_of_guards exEnvPlain exRemoteBC [] (by decide)])

/-- Counterexample to C7 as stated: with `MAX_IMAGES=1` and mirror-delete
enabled, items `a.png` (id `A`) and `b.png` (id `B`) both qualify, `b.png` is
beyond the cutoff, its local file `B.png` is present from a prior run — and
the run DELETES it (`deleted = [B.png]`), contradicting "its corresponding
local file is not deleted".  The claim holds only when mirror-delete is
disabled. -/
theorem truncation_deleted_counterexample :
    (listItems exRemoteAB.children).map RemoteItem.name = ["a.png", "b.png"] ∧
    MAX exEnvMax1 = 1 ∧
    deleteMissing exEnvMax1 = true ∧
    orderedNames exEnvMax1 exRemoteAB.children = ["A.png"] ∧
    (syncMain exEnvMax1 exRemoteAB ["A.png", "B.png"]).2 =
      Except.ok { files := ["A.png"], downloads := [], deleted := ["B.png"],
                  manifest := ["A.png"], indexPath := "assets/gallery/index.json" } :=
  ⟨by rfl, by decide, by decide, by rfl, by rfl⟩

/-- C7 (amended): a filename that is not among the kept (sorted, truncated,
derivable) entries is never downloaded and never appears in the manifest; and
when mirror-delete is disabled its local presence is unchanged by the run.
(With mirror-delete enabled, a leftover local image file of a dropped entry
is deleted like any other image file outside the desired set, as the
counterexample shows.) -/
theorem truncation_dropped_frame :
    ∀ (e : Env) (remote : Remote) (dir0 : List String) (ev : List Event)
      (res : RunResult) (f : String),
      syncMain e remote dir0 = (ev, Except.ok res) →
      f ∉ orderedNames e remote.children →
      f ∉ res.downloads ∧ f ∉ res.manifest ∧
      (deleteMissing e = false → (f ∈ res.files ↔ f ∈ dir0)) := by
  intro e remote dir0 ev res f hok hord
  obtain ⟨-, hres⟩ := syncMain_ok_elim e remote dir0 ev res hok
  subst hres
  have hkeys : f ∉ desiredKeys e remote.children :=
    fun h => hord ((desiredKeys_mem_iff e remote.children f).1 h)
  refine ⟨?_, ?_, ?_⟩
  · simp only [runResultOf]
    intro hdl
    exact hkeys ((downloadPhase_downloads_iff dir0 (desiredMap e remote.children)
      (desiredKeys_nodup e remote.children) f).1 hdl).1
  · simp only [runResultOf]
    exact hord
  · intro hdm
    simp only [runResultOf, hdm, deletePhase_of_false]
    rw [downloadPhase_files_mem]
    exact ⟨fun h => h.resolve_right (fun h' => absurd h' hkeys), Or.inl⟩

/-- Witness for the amended C7: with `MAX_IMAGES=1`, mirror-delete unset, and
the dropped entry's file `B.png` present locally, the file is not downloaded,
absent from the manifest, and still present afterwards. -/
theorem truncation_dropped_frame_witness :
    "B.png" ∉ (runResultOf { exEnvMax1 with DELETE_MISSING := none } exRemoteAB ["B.png"]).downloads ∧
    "B.png" ∉ (runResultOf { exEnvMax1 with DELETE_MISSING := none } exRemoteAB ["B.png"]).manifest ∧
    (deleteMissing { exEnvMax1 with DELETE_MISSING := none } = false →
      ("B.png" ∈ (runResultOf { exEnvMax1 with DELETE_MISSING := none } exRemoteAB ["B.png"]).files
        ↔ "B.png" ∈ ["B.png"])) :=
  truncation_dropped_frame { exEnvMax1 with DELETE_MISSING := none } exRemoteAB ["B.png"]
    (syncMain { exEnvMax1 with DELETE_MISSING := none } exRemoteAB ["B.png"]).1
    (runResultOf { exEnvMax1 with DELETE_MISSING := none } exRemoteAB ["B.png"]) "B.png"
    (by rw [← syncMain_snd_of_guards { exEnvMax1 with DELETE_MISSING := none } exRemoteAB
      ["B.png"] (by decide)])
    (by decide)

/-- C9: the allowed-extension set only gates the display-name extension.
Universally: whenever an item's name extension is not in the allowed set, the
derived extension equals the unfiltered mime table `mimeExt` (which never
consults the allowed set); `mimeExt` returns the first match among the
substrings `jpeg`, `jpg`, `png`, `webp`; any such item whose mime type
matches the table is assigned the filename `{id}.{mimeExt}`; and every item
with a derived filename appears in both the desired mapping's keys and the
manifest.  Concretely, `a.jpg` of type `image/jpeg` under allowed set `png`
— with `jpeg` itself excluded from the allowed set — still yields `X.jpeg`
in the desired set and manifest. -/
theorem mime_fallback_not_filtered :
    (∀ (allowed : List String) (name mimeType : String),
        allowed.contains (nameExt name) = false →
        extFromName allowed name mimeType = mimeExt mimeType) ∧
    (∀ mimeType : String,
        (strIncludes (strToLower mimeType) "jpeg" = true → mimeExt mimeType = "jpeg") ∧
        (strIncludes (strToLower mimeType) "jpeg" = false →
          strIncludes (strToLower mimeType) "jpg" = true → mimeExt mimeType = "jpg") ∧
        (strIncludes (strToLower mimeType) "jpeg" = false →
          strIncludes (strToLower mimeType) "jpg" = false →
          strIncludes (strToLower mimeType) "png" = true → mimeExt mimeType = "png") ∧
        (strIncludes (strToLower mimeType) "jpeg" = false →
          strIncludes (strToLower mimeType) "jpg" = false →
          strIncludes (strToLower mimeType) "png" = false →
          strIncludes (strToLower mimeType) "webp" = true → mimeExt mimeType = "webp")) ∧
    (∀ (allowed : List String) (it : RemoteItem),
        allowed.contains (nameExt it.name) = false → mimeExt it.mimeType ≠ "" →
        fileNameOf allowed it = some (it.id ++ "." ++ mimeExt it.mimeType)) ∧
    (∀ (allowed : List String) (items : List RemoteItem) (it : RemoteItem) (fn : String),
        it ∈ items → fileNameOf allowed it = some fn →
        fn ∈ (buildDesired allowed items).1.map Prod.fst ∧
        fn ∈ (buildDesired allowed items).2) ∧
    extFromName ["png"] "a.jpg" "image/jpeg" = "jpeg" ∧
    List.contains ["png"] "jpeg" = false ∧
    allowedExts exEnvPngOnly = ["png"] ∧
    (syncMain exEnvPngOnly exRemoteJpg []).2 =
      Except.ok { files := ["X.jpeg"], downloads := ["X.jpeg"], deleted := [],
                  manifest := ["X.jpeg"], indexPath := "assets/gallery/index.json" } := by
  refine ⟨extFromName_fallback, ?_, ?_, ?_, by decide, by decide, by rfl, by rfl⟩
  · intro mt
    refine ⟨fun h1 => ?_, fun h1 h2 => ?_, fun h1 h2 h3 => ?_, fun h1 h2 h3 h4 => ?_⟩
    · unfold mimeExt
      simp [h1]
    · unfold mimeExt
      simp [h1, h2]
    · unfold mimeExt
      simp [h1, h2, h3]
    · unfold mimeExt
      simp [h1, h2, h3, h4]
  · intro allowed it h1 h2
    have hne : (mimeExt it.mimeType).isEmpty = false := by
      cases h : (mimeExt it.mimeType).isEmpty
      · rfl
      · exact absurd ((String.isEmpty_iff _).1 h) h2
    unfold fileNameOf
    rw [extFromName_fallback allowed it.name it.mimeType h1]
    simp [hne]
  · intro allowed items it fn hmem hfn
    have hord : fn ∈ (buildDesired allowed items).2 := by
      rw [buildDesired_snd]
      exact List.mem_filterMap.2 ⟨it, hmem, hfn⟩
    exact ⟨(buildDesired_keys_mem allowed items fn).2 hord, hord⟩

/-- Witness for C9 at the claim's example: every universal part applied to
the `a.jpg` / `image/jpeg` item under allowed set `png`. -/
theorem mime_fallback_not_filtered_witness :
    extFromName ["png"] "a.jpg" "image/jpeg" = mimeExt "image/jpeg" ∧
    mimeExt "image/jpeg" = "jpeg" ∧
    fileNameOf ["png"] exItemJpg = some (exItemJpg.id ++ "." ++ mimeExt exItemJpg.mimeType) ∧
    ("X.jpeg" ∈ (buildDesired ["png"] [exItemJpg]).1.map Prod.fst ∧
     "X.jpeg" ∈ (buildDesired ["png"] [exItemJpg]).2) :=
  ⟨mime_fallback_not_filtered.1 ["png"] "a.jpg" "image/jpeg" (by decide),
   (mime_fallback_not_filtered.2.1 "image/jpeg").1 (by decide),
   mime_fallback_not_filtered.2.2.1 ["png"] exItemJpg (by decide) (by decide),
   mime_fallback_not_filtered.2.2.2.1 ["png"] [exItemJpg] exItemJpg "X.jpeg"
     (List.mem_singleton.2 rfl) (by decide)⟩

/-- C10: the deletion phase only ever removes filenames matching the fixed
case-insensitive image pattern `.jpg/.jpeg/.png/.webp` — independent of the
configured allowed-extension list — so any other file in the directory
(including `index.json` and files with a custom configured extension such as
`.gif`) survives every completed run. -/
theorem deletion_only_images :
    (∀ (e : Env) (remote : Remote) (dir0 : List String) (ev : List Event) (res : RunResult),
        syncMain e remote dir0 = (ev, Except.ok res) →
        (∀ f ∈ res.deleted, isImageFile f = true) ∧
        (∀ f ∈ dir0, isImageFile f = false → f ∈ res.files)) ∧
    isImageFile "index.json" = false ∧
    isImageFile "photo.gif" = false ∧
    isImageFile "A.JPG" = true ∧
    isImageFile "b.WebP" = true := by
  refine ⟨?_, by decide, by decide, by decide, by decide⟩
  intro e remote dir0 ev res hok
  obtain ⟨-, hres⟩ := syncMain_ok_elim e remote dir0 ev res hok
  subst hres
  constructor
  · intro f hf
    simp only [runResultOf] at hf
    exact ((deletePhase_deleted_mem _ _ _ f).1 hf).2.2.1
  · intro f hf him
    simp only [runResultOf]
    rw [deletePhase_files_mem]
    refine ⟨?_, fun _ h => ?_⟩
    · rw [downloadPhase_files_mem]
      exact Or.inl hf
    · rw [him] at h
      exact absurd h (by decide)

/-- Witness for C10: a run over a directory holding a non-image file. -/
theorem deletion_only_images_witness :
    (∀ f ∈ (runResultOf exEnvDelete exRemoteBC ["keep.txt", "A.jpg"]).deleted,
        isImageFile f = true) ∧
    (∀ f ∈ ["keep.txt", "A.jpg"], isImageFile f = false →
        f ∈ (runResultOf exEnvDelete exRemoteBC ["keep.txt", "A.jpg"]).files) :=
  deletion_only_images.1 exEnvDelete exRemoteBC ["keep.txt", "A.jpg"]
    (syncMain exEnvDelete exRemoteBC ["keep.txt", "A.jpg"]).1
    (runResultOf exEnvDelete exRemoteBC ["keep.txt", "A.jpg"])
    (by rw [← syncMain_snd_of_guards exEnvDelete exRemoteBC ["keep.txt", "A.jpg"] (by decide)])

/-- Witness for C4 at a concrete share URL. -/
theorem toShareId_urlsafe_witness :
    toShareId "https://sp.example/f" = toShareId "https://sp.example/f" ∧
    '+' ∉ (toShareId "https://sp.example/f").data ∧
    '/' ∉ (toShareId "https://sp.example/f").data ∧
    (toShareId "https://sp.example/f").data.getLast? ≠ some '=' :=
  ⟨(toShareId_urlsafe "https://sp.example/f").1 "https://sp.example/f" rfl,
   (toShareId_urlsafe "https://sp.example/f").2.1,
   (toShareId_urlsafe "https://sp.example/f").2.2.1,
   (toShareId_urlsafe "https://sp.example/f").2.2.2.1⟩

/-- Witness for C8 at an environment with every optional variable unset and a
non-numeric maximum example. -/
theorem optional_defaults_witness :
    (deleteMissing exEnvPlain = false) ∧ (MAX exEnvPlain = 200) ∧
    (MAX { exEnvPlain with MAX_IMAGES := some "plenty" } = 200) ∧
    (allowedExts exEnvPlain = defaultExts) ∧
    (INDEX_PATH exEnvPlain = GALLERY_DIR ++ "/index.json") :=
  ⟨(optional_defaults.1 exEnvPlain).1 rfl,
   (optional_defaults.1 exEnvPlain).2.1 rfl,
   (optional_defaults.1 { exEnvPlain with MAX_IMAGES := some "plenty" }).2.2.1
     "plenty" rfl (by decide),
   (optional_defaults.1 exEnvPlain).2.2.2.1 rfl,
   (optional_defaults.1 exEnvPlain).2.2.2.2 rfl⟩

end SyncGallery
